import Mathlib

/-!
Shallow embedding of the chat-completion gateway handler
(`ai-service/handler/chat.py`): conversation truncation, message
conversion, model-capability adaptation, non-streaming response
extraction, the SSE streaming state machine, the empty-response error
classification and the model catalog.  Python strings are `String`,
Python `None`/optional attributes are `Option`, machine-level details
(logging, network I/O) are dropped; everything observable by the claims
is kept.
-/

set_option maxRecDepth 8192

namespace GoalKeeper

/-- Message role: the `Literal["system", "user", "assistant"]` of `ChatMessage.role`. -/
inductive Role where
  | system
  | user
  | assistant
deriving DecidableEq, Repr

/-- `ChatMessage`: a single chat message (`role`, non-empty `content`). -/
structure ChatMessage where
  role : Role
  content : String
deriving DecidableEq, Repr

/-- `ChatRequest`: chat completion request payload.  `temperature` is modelled as a
rational; `model` keeps Python's `Optional[str]` shape (pydantic fills the default
`"azure/gpt-5-nano"` when the field is omitted). -/
structure ChatRequest where
  messages : List ChatMessage
  temperature : ℚ
  max_completion_tokens : Option ℕ
  model : Option String
deriving DecidableEq, Repr

/-- `ChatHandler._max_history_messages = 6`. -/
def maxHistoryMessages : ℕ := 6

/-- `ChatHandler._max_message_length = 1500`. -/
def maxMessageLength : ℕ := 1500

/-- Python slicing `s[:n]`: the first `n` characters of `s`. -/
def pyTake (s : String) (n : ℕ) : String := String.mk (s.data.take n)

/-- The per-message truncation step of `_truncate_conversation_history`
(`content[:max_message_length] + "..."` when the content is too long),
rebuilding the message as `ChatMessage(role=msg.role, content=content)`. -/
def truncateMsg (maxLen : ℕ) (msg : ChatMessage) : ChatMessage :=
  if maxLen < msg.content.length then
    { role := msg.role, content := pyTake msg.content maxLen ++ "..." }
  else
    { role := msg.role, content := msg.content }

/-- `ChatHandler._truncate_conversation_history` with the default bounds
(`max_messages = 6`, `max_message_length = 1500`).  Branch 1 fires when the
TOTAL message count is at most `max_messages`; otherwise system messages are
separated out, the last `max_messages` non-system messages are kept
(`conversation_messages[-max_messages:]`, i.e. `drop (len - max)` with
truncating subtraction), per-message truncation is applied to those, and the
system messages are prepended untouched. -/
def truncateConversationHistory (messages : List ChatMessage) : List ChatMessage :=
  if messages.length ≤ maxHistoryMessages then
    messages.map (truncateMsg maxMessageLength)
  else
    let systemMessages := messages.filter (fun m => m.role = Role.system)
    let conversationMessages := messages.filter (fun m => ¬ m.role = Role.system)
    let recentMessages :=
      conversationMessages.drop (conversationMessages.length - maxHistoryMessages)
    systemMessages ++ recentMessages.map (truncateMsg maxMessageLength)

/-- `ChatHandler._default_system_prompt`. -/
def defaultSystemPrompt : String := "You are a helpful assistant."

/-- An OpenAI-format message dict `{"role": ..., "content": ...}`. -/
structure OpenAIMessage where
  role : String
  content : String
deriving DecidableEq, Repr

/-- Rendering of a `Role` into the literal role string. -/
def roleToString : Role → String
  | Role.system => "system"
  | Role.user => "user"
  | Role.assistant => "assistant"

/-- `ChatHandler._to_openai_messages`: prepend a synthetic system message with the
default prompt when no system-role message is present, then map every message to
its role/content pair in order. -/
def toOpenAIMessages (messages : List ChatMessage) : List OpenAIMessage :=
  let hasSystem := messages.any (fun m => m.role = Role.system)
  let base : List OpenAIMessage :=
    if hasSystem then [] else [{ role := "system", content := defaultSystemPrompt }]
  base ++ messages.map (fun m => { role := roleToString m.role, content := m.content })

/-- Python list/string prefix test, on character lists. -/
def listIsPrefixOf : List Char → List Char → Bool
  | [], _ => true
  | _ :: _, [] => false
  | a :: as, b :: bs => a = b && listIsPrefixOf as bs

/-- Python `needle in hay` substring containment, on character lists. -/
def listContainsSub : List Char → List Char → Bool
  | needle, [] => listIsPrefixOf needle []
  | needle, hay@(_ :: rest) => listIsPrefixOf needle hay || listContainsSub needle rest

/-- Python's `needle in hay` substring test on strings. -/
def strIn (needle hay : String) : Bool :=
  listContainsSub needle.data hay.data

/-- The thinking-capability classification of `_adapt_payload`:
`"reasoner" in model or "thinking" in model or "o1" in model or "o3" in model`. -/
def isThinkingModel (model : String) : Bool :=
  strIn "reasoner" model || strIn "thinking" model || strIn "o1" model || strIn "o3" model

/-- The parameter bundle returned by `_adapt_payload` (the `api_base`/`api_key`
entries are process configuration and carry no per-request information). -/
structure CompletionKwargs where
  model : String
  messages : List OpenAIMessage
  temperature : ℚ
  max_tokens : Option ℕ
deriving DecidableEq, Repr

/-- `ChatHandler._adapt_payload`: boost `max_completion_tokens` to 16384 for a
thinking-capable model when the caller's value is `None` or below 16384, convert
the messages to OpenAI format, rewrite system roles to `[SYSTEM INSTRUCTION]`
user messages for the `o1-`/`o3-` families, and route via the `openai/` proxy
prefix. -/
def adaptPayload (model : String) (payload : ChatRequest) : CompletionKwargs :=
  let boostedMaxTokens :=
    if isThinkingModel model &&
        (match payload.max_completion_tokens with
         | none => true
         | some v => decide (v < 16384)) then
      some 16384
    else payload.max_completion_tokens
  let openaiMessages := toOpenAIMessages payload.messages
  let openaiMessages :=
    if strIn "o1-" model || strIn "o3-" model then
      openaiMessages.map (fun m =>
        if m.role = "system" then
          { role := "user", content := "[SYSTEM INSTRUCTION]\n" ++ m.content }
        else m)
    else openaiMessages
  { model := "openai/" ++ model
    messages := openaiMessages
    temperature := payload.temperature
    max_tokens := boostedMaxTokens }

/-- Python's `x or 8192` applied to `payload.max_completion_tokens`
(falsy values `None` and `0` fall back to the default). -/
def tokensOrDefault : Option ℕ → ℕ
  | none => 8192
  | some 0 => 8192
  | some v => v

/-- The empty-response error of `ChatHandler.chat` (an HTTP status code and a
detail message), built from the recorded finish reason, the payload's
`max_completion_tokens` and the reported reasoning-token count:
status 400 with the token-limit guidance when `finish_reason == "length"`,
status 502 with `"Empty response from model."` otherwise. -/
def emptyResponseError (finishReason : Option String) (maxCompletionTokens : Option ℕ)
    (reasoningTokens : ℕ) : ℕ × String :=
  if finishReason = some "length" then
    (400,
      "Response was truncated (hit token limit). Used " ++ toString reasoningTokens ++
      " tokens for reasoning without generating output. Try increasing max_completion_tokens (current: " ++
      toString (tokensOrDefault maxCompletionTokens) ++ ").")
  else
    (502, "Empty response from model.")

/-- The whitespace set of Python's `str.strip()` (ASCII core). -/
def isPyWhitespace (c : Char) : Bool :=
  c = ' ' || c = '\t' || c = '\n' || c = '\r' || c = '\x0b' || c = '\x0c'

/-- Python's `s.strip()`: drop leading and trailing whitespace. -/
def pyStrip (s : String) : String :=
  String.mk (((s.data.dropWhile isPyWhitespace).reverse.dropWhile isPyWhitespace).reverse)

/-- A `choice.message` object of a non-streaming upstream result; each field is
`Option (Option _)`: the outer layer is attribute presence (`hasattr`), the
inner one the attribute's value (`None` or a string). -/
structure RespMessage where
  content : Option (Option String)
  text : Option (Option String)
  reasoning_content : Option (Option String)
deriving DecidableEq, Repr

/-- A `response.choices[i]` object: a `message` attribute (present/absent, and
possibly `None`) and a `text` attribute. -/
structure RespChoice where
  message : Option (Option RespMessage)
  text : Option (Option String)
deriving DecidableEq, Repr

/-- A non-streaming upstream result: optional `choices` list (absent, `None`
and `[]` behave identically under the code's truthiness guard, so one `Option`
layer suffices there), optional top-level `content` text and optional
`reasoning_content` attribute. -/
structure LLMResponse where
  choices : Option (List RespChoice)
  content : Option String
  reasoning_content : Option (Option String)
deriving DecidableEq, Repr

/-- The reply/reasoning extraction of `ChatHandler.chat` (the probe cascade over
`choices[0].message.{content,text}`, `choices[0].text`, then the top-level
`response.content` fallback when the reply is still empty, and the top-level
`response.reasoning_content` fallback when the reasoning is still falsy). -/
def extractReply (response : LLMResponse) : String × Option String :=
  let fromChoices : String × Option String :=
    match response.choices with
    | some (choice :: _) =>
      match choice.message with
      | some messageAttr =>
        match messageAttr with
        | some message =>
          let reply :=
            match message.content with
            | some (some c) => if c ≠ "" then pyStrip c else ""
            | some none => ""
            | none =>
              match message.text with
              | some (some t) => if t ≠ "" then pyStrip t else ""
              | some none => ""
              | none => ""
          let reasoning :=
            match message.reasoning_content with
            | some rc => rc
            | none => none
          (reply, reasoning)
        | none => ("", none)
      | none =>
        match choice.text with
        | some (some t) => (if t ≠ "" then pyStrip t else "", none)
        | some none => ("", none)
        | none => ("", none)
    | _ => ("", none)
  let reply :=
    if fromChoices.1 = "" then
      match response.content with
      | some c => pyStrip c
      | none => fromChoices.1
    else fromChoices.1
  let reasoning :=
    if (match fromChoices.2 with | none => true | some s => decide (s = "")) then
      match response.reasoning_content with
      | some rc => rc
      | none => fromChoices.2
    else fromChoices.2
  (reply, reasoning)

/-- A `choices[0].delta` object of a stream chunk; `none` stands for an absent
or falsy attribute value (the code guards every read with truthiness). -/
structure StreamDelta where
  reasoning_content : Option String
  content : Option String
  text : Option String
deriving DecidableEq, Repr

/-- A `chunk.choices[i]` object of a stream chunk. -/
structure StreamChoice where
  delta : Option StreamDelta
  finish_reason : Option String
deriving DecidableEq, Repr

/-- A stream chunk, by the attribute shape `_extract_content_from_chunk`
probes: an object carrying `choices`, an object carrying only
`reasoning_content`, only `content`, only `text`, or a raw string. -/
inductive StreamChunk where
  | obj (choices : List StreamChoice)
  | reasoningOnly (reasoning_content : String)
  | contentOnly (content : Option String)
  | textOnly (text : Option String)
  | strChunk (s : String)
deriving DecidableEq, Repr

/-- `ChatHandler._extract_content_from_chunk`: per-shape extraction of
`(content, reasoning)`, with Python truthiness on every attribute read
(`if hasattr(delta, "reasoning_content") and delta.reasoning_content`, etc.;
`chunk.content or ""` for the content-only shape). -/
def extractContentFromChunk (chunk : StreamChunk) : String × Option String :=
  match chunk with
  | .obj (choice :: _) =>
    match choice.delta with
    | some delta =>
      let reasoning :=
        match delta.reasoning_content with
        | some r => if r ≠ "" then some r else none
        | none => none
      let content :=
        match delta.content with
        | some c =>
          if c ≠ "" then c
          else
            match delta.text with
            | some t => if t ≠ "" then t else ""
            | none => ""
        | none =>
          match delta.text with
          | some t => if t ≠ "" then t else ""
          | none => ""
      (content, reasoning)
    | none => ("", none)
  | .obj [] => ("", none)
  | .reasoningOnly r => if r ≠ "" then ("", some r) else ("", none)
  | .contentOnly c => (c.getD "", none)
  | .textOnly t => (t.getD "", none)
  | .strChunk s => (s, none)

/-- SSE framing: each yielded event is `data: <payload>\n\n`. -/
def sse (payload : String) : String := "data: " ++ payload ++ "\n\n"

/-- `max_buffer_size = 30` of `generate_stream`. -/
def maxBufferSize : ℕ := 30

/-- `sentence_endings = ['.', '!', '?', '\n']` of `generate_stream`. -/
def sentenceEndings : List Char := ['.', '!', '?', '\n']

/-- `any(content.endswith(ending) for ending in sentence_endings)`; the endings
are single characters, so `endswith` is a last-character test. -/
def endsWithSentenceEnding (content : String) : Bool :=
  sentenceEndings.any (fun e => content.data.getLast? = some e)

/-- One loop iteration of `generate_stream` over `(chunk_buffer, buffer_size)`:
extract `(content, reasoning)`; a truthy reasoning yields a `[THOUGHT]` event
and skips the rest; truthy content is appended to the buffer, which is flushed
as one SSE event when the size threshold is reached or the just-appended
content ends a sentence.  Returns the new state and the yielded events. -/
def processChunk (st : String × ℕ) (chunk : StreamChunk) : (String × ℕ) × List String :=
  let extracted := extractContentFromChunk chunk
  match extracted.2 with
  | some r => (st, [sse ("[THOUGHT] " ++ r)])
  | none =>
    if extracted.1 ≠ "" then
      let chunkBuffer := st.1 ++ extracted.1
      let bufferSize := st.2 + extracted.1.length
      let shouldFlush :=
        decide (maxBufferSize ≤ bufferSize) || endsWithSentenceEnding extracted.1
      if shouldFlush && chunkBuffer ≠ "" then
        (("", 0), [sse chunkBuffer])
      else
        ((chunkBuffer, bufferSize), [])
    else
      (st, [])

/-- The chunk loop of `generate_stream`: fold `processChunk` over the received
chunks, collecting the yielded events in order. -/
def runChunks (st : String × ℕ) : List StreamChunk → (String × ℕ) × List String
  | [] => (st, [])
  | chunk :: rest =>
    let step := processChunk st chunk
    let tail := runChunks step.1 rest
    (tail.1, step.2 ++ tail.2)

/-- An exception raised while consuming the upstream chunk sequence:
its message, and whether it is a FastAPI `HTTPException` (which the
`except HTTPException: raise` clause re-raises instead of converting). -/
structure StreamFailure where
  message : String
  isHTTPException : Bool
deriving DecidableEq, Repr

/-- `generate_stream`: process the chunks received before the stream ends (or
before an exception is raised by the iteration).  On natural exhaustion, flush
any remaining buffer and emit the `[DONE]` sentinel.  On a non-HTTP exception,
emit one `Error: <message>` event then `[DONE]`; an `HTTPException` is
re-raised, so no further event is emitted. -/
def generateStream (chunks : List StreamChunk) (failure : Option StreamFailure) :
    List String :=
  let run := runChunks ("", 0) chunks
  match failure with
  | some f =>
    if f.isHTTPException then run.2
    else run.2 ++ [sse ("Error: " ++ f.message), sse "[DONE]"]
  | none =>
    let finalFlush := if run.1.1 ≠ "" then [sse run.1.1] else []
    run.2 ++ finalFlush ++ [sse "[DONE]"]

/-- `ModelInfo`: an advertised model descriptor. -/
structure ModelInfo where
  name : String
  full_name : String
  provider : String
  supports_thinking : Bool
deriving DecidableEq, Repr

/-- One entry of the `model_list` configuration: `m.get("model_name")`
(absent/`None` modelled as `none`), `m.get("litellm_params", {}).get("model", "")`
and `m.get("metadata", {}).get("supports_thinking", False)`. -/
structure ConfigEntry where
  model_name : Option String
  litellm_model : String
  supports_thinking : Bool
deriving DecidableEq, Repr

/-- The fixed `provider_map` of `get_models`. -/
def providerMap : List (String × String) :=
  [("azure", "Azure OpenAI (GPT)"),
   ("gemini", "Google Gemini"),
   ("openai", "OpenAI"),
   ("anthropic", "Anthropic Claude"),
   ("vertex_ai", "Google Vertex AI")]

/-- Python's `str.capitalize()`: first character upper-cased, the rest lower-cased. -/
def pyCapitalize (s : String) : String :=
  (s.take 1).toUpper ++ (s.drop 1).toLower

/-- Provider derivation of `get_models`: when the routing id contains `/`, look
the lower-cased first segment up in the provider map, defaulting to its
capitalization; otherwise `"unknown"`. -/
def deriveProvider (modelStr : String) : String :=
  if strIn "/" modelStr then
    let raw := ((modelStr.splitOn "/").headD "").toLower
    match providerMap.lookup raw with
    | some pretty => pretty
    | none => pyCapitalize raw
  else "unknown"

/-- Construction of one `ModelInfo` from a config entry in `get_models`. -/
def entryToInfo (name : String) (entry : ConfigEntry) : ModelInfo :=
  { name := name
    full_name := entry.litellm_model
    provider := deriveProvider entry.litellm_model
    supports_thinking := entry.supports_thinking }

/-- The entry loop of `get_models`: keep an entry when its `model_name` is
truthy and not yet in `seen_names`, in configuration order. -/
def buildModelInfos : List ConfigEntry → List String → List ModelInfo
  | [], _ => []
  | entry :: rest, seen =>
    match entry.model_name with
    | some name =>
      if name ≠ "" ∧ name ∉ seen then
        entryToInfo name entry :: buildModelInfos rest (name :: seen)
      else
        buildModelInfos rest seen
    | none => buildModelInfos rest seen

/-- The hard-coded fallback list of `get_models`. -/
def fallbackModels : List ModelInfo :=
  [{ name := "azure/gpt-5-nano", full_name := "azure/gpt-5-nano",
     provider := "Azure OpenAI (GPT)", supports_thinking := false },
   { name := "gemini/gemini-3-flash-preview", full_name := "gemini/gemini-3-flash-preview",
     provider := "Google Gemini", supports_thinking := false }]

/-- `ChatHandler.get_models`: `none` models an absent configuration file (no
entries are read), `some entries` a loaded `model_list`; when the loop yields
no descriptor, the fallback list is returned. -/
def getModels (config : Option (List ConfigEntry)) : List ModelInfo :=
  let infos :=
    match config with
    | some entries => buildModelInfos entries []
    | none => []
  if infos = [] then fallbackModels else infos

/-- The truncation preamble shared by `ChatHandler.chat` (lines 344-360): when
truncation shrank the message list, rebuild the request passing only
`messages`, `temperature` and `max_completion_tokens`, so the `model` field
takes its pydantic default `"azure/gpt-5-nano"`. -/
def chatPreprocess (payload : ChatRequest) : ChatRequest :=
  let truncated := truncateConversationHistory payload.messages
  if truncated.length < payload.messages.length then
    { messages := truncated
      temperature := payload.temperature
      max_completion_tokens := payload.max_completion_tokens
      model := some "azure/gpt-5-nano" }
  else payload

/-- The identical truncation preamble of `ChatHandler.chat_stream` (lines 479-495). -/
def chatStreamPreprocess (payload : ChatRequest) : ChatRequest :=
  let truncated := truncateConversationHistory payload.messages
  if truncated.length < payload.messages.length then
    { messages := truncated
      temperature := payload.temperature
      max_completion_tokens := payload.max_completion_tokens
      model := some "azure/gpt-5-nano" }
  else payload

/-- `requested_model = payload.model or "azure/gpt-5-nano"` (Python `or`:
`None` and the empty string fall back to the default). -/
def requestedModel (payload : ChatRequest) : String :=
  match payload.model with
  | none => "azure/gpt-5-nano"
  | some "" => "azure/gpt-5-nano"
  | some m => m

/-- Concatenation of a list of strings (for stating flushed-fragment sums). -/
def concatStrings : List String → String
  | [] => ""
  | s :: rest => s ++ concatStrings rest

/-- The concatenation of the content fields extracted from a chunk sequence. -/
def streamContents (chunks : List StreamChunk) : String :=
  concatStrings (chunks.map (fun c => (extractContentFromChunk c).1))

/-- An upstream result object exposing only a top-level `.content` attribute
(no `.choices`, no `.reasoning_content`). -/
def contentOnlyResponse (c : String) : LLMResponse :=
  { choices := none, content := some c, reasoning_content := none }

/-- Concrete conversation: seven messages, six of them non-system, with a
system message interleaved at position 1. -/
def msgsSevenInterleaved : List ChatMessage :=
  [{ role := Role.user, content := "a" }, { role := Role.system, content := "b" },
   { role := Role.user, content := "c" }, { role := Role.user, content := "d" },
   { role := Role.user, content := "e" }, { role := Role.user, content := "f" },
   { role := Role.user, content := "g" }]

/-- A 1501-character content string. -/
def longContent : String := String.mk (List.replicate 1501 'x')

/-- Concrete conversation: one over-long system message followed by six user
messages (seven messages in total, so the >6 branch of truncation fires). -/
def msgsLongSystem : List ChatMessage :=
  [{ role := Role.system, content := longContent },
   { role := Role.user, content := "a" }, { role := Role.user, content := "c" },
   { role := Role.user, content := "d" }, { role := Role.user, content := "e" },
   { role := Role.user, content := "f" }, { role := Role.user, content := "g" }]

/-- Concrete model-list configuration with a duplicated alias. -/
def dupAliasEntries : List ConfigEntry :=
  [{ model_name := some "smart", litellm_model := "azure/gpt-4", supports_thinking := false },
   { model_name := some "smart", litellm_model := "gemini/gemini-pro", supports_thinking := true },
   { model_name := some "fast", litellm_model := "azure/gpt-5-nano", supports_thinking := false }]

/-- Concrete request with eight user messages (truncation shrinks it to six)
and an explicit non-default model. -/
def reqEightMessages : ChatRequest :=
  { messages := msgsSevenInterleaved ++ [{ role := Role.user, content := "h" }]
    temperature := 1
    max_completion_tokens := some 8192
    model := some "gemini/gemini-3-flash-preview" }

-- ------------------------------------------------------------------
-- Helper lemmas about the string embedding
-- ------------------------------------------------------------------

theorem strExt {a b : String} (h : a.data = b.data) : a = b := by
  cases a; cases b; exact congrArg String.mk h

theorem strDataAppend (a b : String) : (a ++ b).data = a.data ++ b.data := rfl

theorem strLengthData (s : String) : s.length = s.data.length := rfl

theorem strAppendEmpty (s : String) : s ++ "" = s :=
  strExt (by simp [strDataAppend])

theorem strEmptyAppend (s : String) : "" ++ s = s :=
  strExt (by simp [strDataAppend])

theorem strAppendAssoc (a b c : String) : a ++ b ++ c = a ++ (b ++ c) :=
  strExt (by simp [strDataAppend])

theorem strLengthAppend (a b : String) : (a ++ b).length = a.length + b.length := by
  rw [strLengthData, strLengthData, strLengthData, strDataAppend, List.length_append]

theorem strDataNeNil {s : String} (h : s ≠ "") : s.data ≠ [] := by
  intro hd
  exact h (strExt hd)

-- ------------------------------------------------------------------
-- C3: truncation as identity
-- ------------------------------------------------------------------

/-- C3 (counterexample): a conversation with six non-system messages, every
content within 1500 characters, on which truncation is NOT the identity — the
total count is seven, so the selection branch fires and moves the interleaved
system message to the front. -/
theorem truncate_reorders_interleaved_system :
    msgsSevenInterleaved.length = 7 ∧
    (msgsSevenInterleaved.filter (fun m => ¬ m.role = Role.system)).length = 6 ∧
    msgsSevenInterleaved.all (fun m => m.content.length ≤ 1500) = true ∧
    truncateConversationHistory msgsSevenInterleaved ≠ msgsSevenInterleaved := by
  refine ⟨rfl, rfl, rfl, ?_⟩
  decide

/-- C3 (amended): for every conversation with at most 6 messages IN TOTAL and
every content at most 1500 characters, truncation returns exactly the input
messages, in order. -/
theorem truncate_noop_on_small_conversations (msgs : List ChatMessage)
    (hcount : msgs.length ≤ 6)
    (hlen : ∀ m ∈ msgs, m.content.length ≤ 1500) :
    truncateConversationHistory msgs = msgs := by
  have hid : ∀ m ∈ msgs, truncateMsg maxMessageLength m = m := by
    intro m hm
    have hle := hlen m hm
    unfold truncateMsg
    rw [if_neg (by simp only [maxMessageLength]; omega)]
  unfold truncateConversationHistory
  rw [if_pos (by simpa [maxHistoryMessages] using hcount)]
  calc msgs.map (truncateMsg maxMessageLength)
      = msgs.map id := List.map_congr_left (fun m hm => hid m hm)
    _ = msgs := List.map_id msgs

/-- C3 witness. -/
theorem truncate_noop_witness :
    truncateConversationHistory
        [{ role := Role.system, content := "s" }, { role := Role.user, content := "hi" }] =
      [{ role := Role.system, content := "s" }, { role := Role.user, content := "hi" }] :=
  truncate_noop_on_small_conversations _ (by decide) (by decide)

-- ------------------------------------------------------------------
-- C4: per-message character truncation
-- ------------------------------------------------------------------

/-- C4 (counterexample): seven messages whose system message has 1501
characters; truncation retains it unchanged (length 1501, no marker), while the
claimed output would be the 1503-character `first 1500 ++ "..."`. -/
theorem truncate_keeps_long_system_verbatim :
    (truncateConversationHistory msgsLongSystem).head? =
      some { role := Role.system, content := longContent } ∧
    longContent.length = 1501 ∧
    (pyTake longContent 1500 ++ "...").length = 1503 := by
  refine ⟨rfl, rfl, rfl⟩

/-- C4 (amended): in the no-selection branch (at most 6 messages in total)
every over-long message is truncated to its first 1500 characters plus the
`"..."` marker; in the >6-messages branch the same holds for every retained
non-system message, but system messages are prepended with their content
unchanged, however long. -/
theorem truncate_marks_long_messages (msgs : List ChatMessage) :
    (msgs.length ≤ 6 → ∀ m ∈ msgs, 1500 < m.content.length →
      ChatMessage.mk m.role (pyTake m.content 1500 ++ "...") ∈
        truncateConversationHistory msgs) ∧
    (6 < msgs.length →
      ∀ m ∈ (msgs.filter (fun x => ¬ x.role = Role.system)).drop
          ((msgs.filter (fun x => ¬ x.role = Role.system)).length - 6),
        1500 < m.content.length →
        ChatMessage.mk m.role (pyTake m.content 1500 ++ "...") ∈
          truncateConversationHistory msgs) ∧
    (6 < msgs.length → ∀ m ∈ msgs, m.role = Role.system →
      m ∈ truncateConversationHistory msgs) := by
  have hmark : ∀ m : ChatMessage, 1500 < m.content.length →
      truncateMsg maxMessageLength m =
        ChatMessage.mk m.role (pyTake m.content 1500 ++ "...") := by
    intro m hm
    unfold truncateMsg maxMessageLength
    rw [if_pos hm]
  refine ⟨?_, ?_, ?_⟩
  · intro hle m hm hlong
    unfold truncateConversationHistory
    rw [if_pos (by simpa [maxHistoryMessages] using hle)]
    exact hmark m hlong ▸ List.mem_map_of_mem (truncateMsg maxMessageLength) hm
  · intro hgt m hm hlong
    unfold truncateConversationHistory
    rw [if_neg (by simp [maxHistoryMessages]; omega)]
    refine List.mem_append_right _ ?_
    exact hmark m hlong ▸ List.mem_map_of_mem (truncateMsg maxMessageLength) hm
  · intro hgt m hm hsys
    unfold truncateConversationHistory
    rw [if_neg (by simp [maxHistoryMessages]; omega)]
    refine List.mem_append_left _ ?_
    exact List.mem_filter.mpr ⟨hm, by simp [hsys]⟩

/-- C4 witness: a 1501-character user message in a two-message conversation is
truncated to its first 1500 characters plus the marker. -/
theorem truncate_marks_long_messages_witness :
    ChatMessage.mk Role.user (pyTake longContent 1500 ++ "...") ∈
      truncateConversationHistory
        [{ role := Role.user, content := longContent },
         { role := Role.assistant, content := "ok" }] :=
  (truncate_marks_long_messages _).1 (by decide)
    { role := Role.user, content := longContent } (by simp) (by decide)

-- ------------------------------------------------------------------
-- C5: token-ceiling adaptation
-- ------------------------------------------------------------------

/-- C5: payload adaptation never lowers a caller-specified
`max_completion_tokens`; the resulting `max_tokens` differs from the caller's
value exactly when the model is thinking-capable and the caller's value is
absent or below 16384, and in that case it is exactly 16384. -/
theorem adapt_payload_token_floor (model : String) (payload : ChatRequest) :
    (∀ v, payload.max_completion_tokens = some v →
      ∃ w, (adaptPayload model payload).max_tokens = some w ∧ v ≤ w) ∧
    ((adaptPayload model payload).max_tokens ≠ payload.max_completion_tokens ↔
      (isThinkingModel model = true ∧
        (payload.max_completion_tokens = none ∨
          ∃ v, payload.max_completion_tokens = some v ∧ v < 16384))) ∧
    ((adaptPayload model payload).max_tokens ≠ payload.max_completion_tokens →
      (adaptPayload model payload).max_tokens = some 16384) := by
  have hmt : (adaptPayload model payload).max_tokens =
      if isThinkingModel model &&
          (match payload.max_completion_tokens with
           | none => true
           | some v => decide (v < 16384)) then
        some 16384
      else payload.max_completion_tokens := rfl
  by_cases hcase : isThinkingModel model = true ∧
      (payload.max_completion_tokens = none ∨
        ∃ v, payload.max_completion_tokens = some v ∧ v < 16384)
  · have hb : (isThinkingModel model &&
        (match payload.max_completion_tokens with
         | none => true
         | some v => decide (v < 16384))) = true := by
      obtain ⟨h1, h2⟩ := hcase
      rw [h1, Bool.true_and]
      rcases h2 with h | ⟨v, hv, hlt⟩
      · rw [h]
      · rw [hv]
        simpa using hlt
    rw [hmt, if_pos hb]
    refine ⟨?_, ?_, fun _ => rfl⟩
    · intro u hu
      refine ⟨16384, rfl, ?_⟩
      rcases hcase.2 with h | ⟨v, hv, hlt⟩
      · rw [h] at hu
        cases hu
      · rw [hv] at hu
        injection hu with hvu
        omega
    · constructor
      · intro _
        exact hcase
      · intro _
        rcases hcase.2 with h | ⟨v, hv, hlt⟩
        · rw [h]
          simp
        · rw [hv]
          intro hEq
          injection hEq with hEq
          omega
  · have hb : (isThinkingModel model &&
        (match payload.max_completion_tokens with
         | none => true
         | some v => decide (v < 16384))) = false := by
      cases hthink : isThinkingModel model with
      | false => rw [Bool.false_and]
      | true =>
        cases hmct : payload.max_completion_tokens with
        | none => exact absurd ⟨hthink, Or.inl hmct⟩ hcase
        | some v =>
          have hge : ¬ v < 16384 := fun hlt => hcase ⟨hthink, Or.inr ⟨v, hmct, hlt⟩⟩
          simp [hge]
    rw [hmt, if_neg (by simp [hb])]
    refine ⟨fun u hu => ⟨u, hu, le_refl u⟩, ?_, fun h => absurd rfl h⟩
    constructor
    · intro h
      exact absurd rfl h
    · intro h
      exact absurd h hcase

/-- C5 witness: a thinking-capable model with a caller ceiling of 8192 is
boosted to exactly 16384 (and never lowered). -/
theorem adapt_payload_token_floor_witness :
    (∃ w, (adaptPayload "deepseek-reasoner"
        { messages := [{ role := Role.user, content := "x" }]
          temperature := 1
          max_completion_tokens := some 8192
          model := none }).max_tokens = some w ∧ 8192 ≤ w) ∧
    (adaptPayload "deepseek-reasoner"
        { messages := [{ role := Role.user, content := "x" }]
          temperature := 1
          max_completion_tokens := some 8192
          model := none }).max_tokens = some 16384 :=
  ⟨(adapt_payload_token_floor "deepseek-reasoner" _).1 8192 rfl,
   (adapt_payload_token_floor "deepseek-reasoner" _).2.2 (by decide)⟩

-- ------------------------------------------------------------------
-- C6: empty-response error classification
-- ------------------------------------------------------------------

theorem listIsPrefixOf_self_append (n suf : List Char) :
    listIsPrefixOf n (n ++ suf) = true := by
  induction n with
  | nil => rfl
  | cons a as ih => simp [listIsPrefixOf, ih]

theorem listContainsSub_self_append (n suf : List Char) :
    listContainsSub n (n ++ suf) = true := by
  cases n with
  | nil =>
    cases suf with
    | nil => rfl
    | cons b bs => simp [listContainsSub, listIsPrefixOf]
  | cons a as =>
    have h := listIsPrefixOf_self_append (a :: as) suf
    simp only [List.cons_append] at h
    simp [listContainsSub, h]

theorem listContainsSub_append_of (pre l n : List Char)
    (h : listContainsSub n l = true) : listContainsSub n (pre ++ l) = true := by
  induction pre with
  | nil => simpa using h
  | cons a as ih => simp [listContainsSub, ih]

/-- C6: when extraction yields neither reply nor reasoning, the handler's
error is status 400 with a detail that contains the configured token ceiling
when the recorded finish reason is `"length"`, and status 502 otherwise. -/
theorem empty_response_status_codes (finishReason : Option String)
    (maxCompletionTokens : Option ℕ) (reasoningTokens : ℕ) :
    (finishReason = some "length" →
      (emptyResponseError finishReason maxCompletionTokens reasoningTokens).1 = 400 ∧
      strIn (toString (tokensOrDefault maxCompletionTokens))
        (emptyResponseError finishReason maxCompletionTokens reasoningTokens).2 = true) ∧
    (finishReason ≠ some "length" →
      (emptyResponseError finishReason maxCompletionTokens reasoningTokens).1 = 502) := by
  constructor
  · intro h
    unfold emptyResponseError
    rw [if_pos h]
    refine ⟨rfl, ?_⟩
    unfold strIn
    simp only [strDataAppend, List.append_assoc]
    apply listContainsSub_append_of
    apply listContainsSub_append_of
    apply listContainsSub_append_of
    exact listContainsSub_self_append _ _
  · intro h
    unfold emptyResponseError
    rw [if_neg h]

/-- C6 witness: finish reason `"length"` with ceiling 8192 gives status 400
and a detail mentioning 8192; a `"stop"` finish reason gives status 502. -/
theorem empty_response_status_codes_witness :
    ((emptyResponseError (some "length") (some 8192) 100).1 = 400 ∧
      strIn (toString (tokensOrDefault (some 8192)))
        (emptyResponseError (some "length") (some 8192) 100).2 = true) ∧
    (emptyResponseError (some "stop") (some 8192) 100).1 = 502 :=
  ⟨(empty_response_status_codes (some "length") (some 8192) 100).1 rfl,
   (empty_response_status_codes (some "stop") (some 8192) 100).2 (by decide)⟩

-- ------------------------------------------------------------------
-- C7: extraction from a content-only result
-- ------------------------------------------------------------------

/-- C7 (counterexample): the `.content` fallback applies `.strip()`, so a
content of `" Hello "` is NOT returned verbatim. -/
theorem extract_reply_strips_content :
    (extractReply (contentOnlyResponse " Hello ")).1 ≠ " Hello " := by
  decide

/-- C7 (amended): on a result exposing only a top-level `.content` attribute
(no `.choices`), extraction returns that content with leading and trailing
whitespace stripped, and empty reasoning; in particular it is verbatim exactly
when the content has no surrounding whitespace. -/
theorem extract_reply_content_fallback (c : String) :
    extractReply (contentOnlyResponse c) = (pyStrip c, none) ∧
    (pyStrip c = c → extractReply (contentOnlyResponse c) = (c, none)) := by
  refine ⟨rfl, fun h => ?_⟩
  rw [show extractReply (contentOnlyResponse c) = (pyStrip c, none) from rfl, h]

/-- C7 witness: a content without surrounding whitespace comes back verbatim
with empty reasoning. -/
theorem extract_reply_content_fallback_witness :
    extractReply (contentOnlyResponse "Hello") = ("Hello", none) :=
  (extract_reply_content_fallback "Hello").2 (by decide)

-- ------------------------------------------------------------------
-- C9: post-truncation request rebuild drops the model field
-- ------------------------------------------------------------------

/-- C9: whenever truncation shrinks the message list, both `chat` and
`chat_stream` rebuild the request without its `model` field, so the upstream
call resolves the default model `"azure/gpt-5-nano"` instead of the caller's
requested one, while `temperature` and `max_completion_tokens` survive. -/
theorem truncation_rebuild_uses_default_model (payload : ChatRequest)
    (h : (truncateConversationHistory payload.messages).length < payload.messages.length) :
    (chatPreprocess payload).model = some "azure/gpt-5-nano" ∧
    requestedModel (chatPreprocess payload) = "azure/gpt-5-nano" ∧
    (chatPreprocess payload).temperature = payload.temperature ∧
    (chatPreprocess payload).max_completion_tokens = payload.max_completion_tokens ∧
    chatStreamPreprocess payload = chatPreprocess payload := by
  unfold chatPreprocess chatStreamPreprocess
  rw [if_pos h]
  exact ⟨rfl, rfl, rfl, rfl, rfl⟩

/-- C9 witness: eight user-side messages truncate to seven retained ones, the
rebuilt request carries the default model although the caller asked for
`"gemini/gemini-3-flash-preview"`, and temperature/token ceiling survive. -/
theorem truncation_rebuild_uses_default_model_witness :
    (truncateConversationHistory reqEightMessages.messages).length <
      reqEightMessages.messages.length ∧
    (chatPreprocess reqEightMessages).model = some "azure/gpt-5-nano" ∧
    requestedModel (chatPreprocess reqEightMessages) = "azure/gpt-5-nano" ∧
    (chatPreprocess reqEightMessages).temperature = reqEightMessages.temperature ∧
    (chatPreprocess reqEightMessages).max_completion_tokens =
      reqEightMessages.max_completion_tokens ∧
    chatStreamPreprocess reqEightMessages = chatPreprocess reqEightMessages :=
  ⟨by decide, truncation_rebuild_uses_default_model reqEightMessages (by decide)⟩

-- ------------------------------------------------------------------
-- C10: system-message guarantee of the OpenAI conversion
-- ------------------------------------------------------------------

/-- C10: when no system-role message is present, conversion prepends the
synthetic default system message; when one is present, the output is exactly
the input as role/content pairs in order; in both cases the output carries at
least one system message. -/
theorem to_openai_messages_system_guarantee (msgs : List ChatMessage) :
    ((¬ ∃ m ∈ msgs, m.role = Role.system) →
      toOpenAIMessages msgs =
        { role := "system", content := defaultSystemPrompt } ::
          msgs.map (fun m => { role := roleToString m.role, content := m.content })) ∧
    ((∃ m ∈ msgs, m.role = Role.system) →
      toOpenAIMessages msgs =
        msgs.map (fun m => { role := roleToString m.role, content := m.content })) ∧
    (∃ om ∈ toOpenAIMessages msgs, om.role = "system") := by
  have hany : (msgs.any (fun m => m.role = Role.system)) = true ↔
      ∃ m ∈ msgs, m.role = Role.system := by
    simp [List.any_eq_true]
  refine ⟨?_, ?_, ?_⟩
  · intro hno
    show (if (msgs.any fun m => m.role = Role.system) = true then
        ([] : List OpenAIMessage)
      else [{ role := "system", content := defaultSystemPrompt }]) ++
        msgs.map (fun m => { role := roleToString m.role, content := m.content }) = _
    rw [if_neg (fun hc => hno (hany.mp hc))]
    rfl
  · intro hyes
    show (if (msgs.any fun m => m.role = Role.system) = true then
        ([] : List OpenAIMessage)
      else [{ role := "system", content := defaultSystemPrompt }]) ++
        msgs.map (fun m => { role := roleToString m.role, content := m.content }) = _
    rw [if_pos (hany.mpr hyes)]
    rfl
  · by_cases hc : ∃ m ∈ msgs, m.role = Role.system
    · obtain ⟨m, hm, hsys⟩ := hc
      refine ⟨{ role := roleToString m.role, content := m.content }, ?_, by
        rw [hsys]; rfl⟩
      show _ ∈ (if (msgs.any fun m => m.role = Role.system) = true then
          ([] : List OpenAIMessage)
        else [{ role := "system", content := defaultSystemPrompt }]) ++
          msgs.map (fun m => { role := roleToString m.role, content := m.content })
      rw [if_pos (hany.mpr ⟨m, hm, hsys⟩)]
      exact List.mem_map_of_mem _ hm
    · refine ⟨{ role := "system", content := defaultSystemPrompt }, ?_, rfl⟩
      show _ ∈ (if (msgs.any fun m => m.role = Role.system) = true then
          ([] : List OpenAIMessage)
        else [{ role := "system", content := defaultSystemPrompt }]) ++
          msgs.map (fun m => { role := roleToString m.role, content := m.content })
      rw [if_neg (fun h => hc (hany.mp h))]
      exact List.mem_cons_self _ _

/-- C10 witness: a lone user message gets the synthetic system message
prepended; a conversation with its own system message is converted verbatim;
both outputs contain a system-role entry. -/
theorem to_openai_messages_system_guarantee_witness :
    toOpenAIMessages [{ role := Role.user, content := "hi" }] =
      [{ role := "system", content := defaultSystemPrompt },
       { role := "user", content := "hi" }] ∧
    toOpenAIMessages
        [{ role := Role.system, content := "s" }, { role := Role.user, content := "hi" }] =
      [{ role := "system", content := "s" }, { role := "user", content := "hi" }] :=
  ⟨(to_openai_messages_system_guarantee [{ role := Role.user, content := "hi" }]).1
      (by decide),
   (to_openai_messages_system_guarantee
      [{ role := Role.system, content := "s" }, { role := Role.user, content := "hi" }]).2.1
      ⟨{ role := Role.system, content := "s" }, by simp, rfl⟩⟩

-- ------------------------------------------------------------------
-- C8: model catalog deduplication and fallback
-- ------------------------------------------------------------------

theorem buildModelInfos_names (entries : List ConfigEntry) (seen : List String) :
    (∀ info ∈ buildModelInfos entries seen, info.name ∉ seen ∧ info.name ≠ "") ∧
    ((buildModelInfos entries seen).map ModelInfo.name).Nodup := by
  induction entries generalizing seen with
  | nil => exact ⟨fun info h => absurd h (List.not_mem_nil info), List.nodup_nil⟩
  | cons entry rest ih =>
    cases hname : entry.model_name with
    | none =>
      simp only [buildModelInfos, hname]
      exact ih seen
    | some name =>
      by_cases hkeep : name ≠ "" ∧ name ∉ seen
      · simp only [buildModelInfos, hname]
        rw [if_pos hkeep]
        obtain ⟨ihMem, ihNodup⟩ := ih (name :: seen)
        constructor
        · intro info hinfo
          rcases List.mem_cons.mp hinfo with hEq | hMem
          · subst hEq
            exact ⟨hkeep.2, hkeep.1⟩
          · have hprops := ihMem info hMem
            exact ⟨fun hseen => hprops.1 (List.mem_cons_of_mem _ hseen), hprops.2⟩
        · simp only [List.map_cons, List.nodup_cons]
          refine ⟨?_, ihNodup⟩
          intro hmem
          obtain ⟨info, hinfo, hEq⟩ := List.mem_map.mp hmem
          apply (ihMem info hinfo).1
          rw [hEq]
          exact List.mem_cons_self _ _
      · simp only [buildModelInfos, hname]
        rw [if_neg hkeep]
        exact ih seen

theorem buildModelInfos_first_occurrence (entries : List ConfigEntry)
    (seen : List String) :
    ∀ info ∈ buildModelInfos entries seen,
      ∃ e, entries.find? (fun x => x.model_name == some info.name) = some e ∧
        info = entryToInfo info.name e := by
  induction entries generalizing seen with
  | nil =>
    intro info h
    exact absurd h (List.not_mem_nil info)
  | cons entry rest ih =>
    intro info hinfo
    cases hname : entry.model_name with
    | none =>
      have hmem : info ∈ buildModelInfos rest seen := by
        simpa only [buildModelInfos, hname] using hinfo
      rw [List.find?_cons_of_neg _ (by simp [hname])]
      exact ih seen info hmem
    | some name =>
      by_cases hkeep : name ≠ "" ∧ name ∉ seen
      · have hbuild : buildModelInfos (entry :: rest) seen =
            entryToInfo name entry :: buildModelInfos rest (name :: seen) := by
          simp only [buildModelInfos, hname]
          rw [if_pos hkeep]
        rw [hbuild] at hinfo
        rcases List.mem_cons.mp hinfo with hEq | hMem
        · subst hEq
          refine ⟨entry, ?_, rfl⟩
          rw [List.find?_cons_of_pos _ (by simp [hname, entryToInfo])]
        · have hinfoProps := (buildModelInfos_names rest (name :: seen)).1 info hMem
          have hne : info.name ≠ name :=
            fun h => hinfoProps.1 (h ▸ List.mem_cons_self name seen)
          rw [List.find?_cons_of_neg _ (by simp [hname]; exact fun h => hne h.symm)]
          exact ih (name :: seen) info hMem
      · have hbuild : buildModelInfos (entry :: rest) seen =
            buildModelInfos rest seen := by
          simp only [buildModelInfos, hname]
          rw [if_neg hkeep]
        rw [hbuild] at hinfo
        have hinfoProps := (buildModelInfos_names rest seen).1 info hinfo
        have hne : info.name ≠ name := by
          by_cases hn0 : name = ""
          · rw [hn0]
            exact hinfoProps.2
          · have hseen : name ∈ seen := by
              by_contra hns
              exact hkeep ⟨hn0, hns⟩
            exact fun h => hinfoProps.1 (h ▸ hseen)
        rw [List.find?_cons_of_neg _ (by simp [hname]; exact fun h => hne h.symm)]
        exact ih seen info hinfo

theorem buildModelInfos_complete (entries : List ConfigEntry) (seen : List String) :
    ∀ e ∈ entries, ∀ n, e.model_name = some n → n ≠ "" → n ∉ seen →
      n ∈ (buildModelInfos entries seen).map ModelInfo.name := by
  induction entries generalizing seen with
  | nil =>
    intro e he
    exact absurd he (List.not_mem_nil e)
  | cons entry rest ih =>
    intro e he n hen hn0 hnseen
    rcases List.mem_cons.mp he with hEq | hMem
    · subst hEq
      have hbuild : buildModelInfos (e :: rest) seen =
          entryToInfo n e :: buildModelInfos rest (n :: seen) := by
        simp only [buildModelInfos, hen]
        rw [if_pos ⟨hn0, hnseen⟩]
      rw [hbuild, List.map_cons]
      exact List.mem_cons.mpr (Or.inl rfl)
    · cases hname : entry.model_name with
      | none =>
        have hbuild : buildModelInfos (entry :: rest) seen =
            buildModelInfos rest seen := by
          simp only [buildModelInfos, hname]
        rw [hbuild]
        exact ih seen e hMem n hen hn0 hnseen
      | some name =>
        by_cases hkeep : name ≠ "" ∧ name ∉ seen
        · have hbuild : buildModelInfos (entry :: rest) seen =
              entryToInfo name entry :: buildModelInfos rest (name :: seen) := by
            simp only [buildModelInfos, hname]
            rw [if_pos hkeep]
          rw [hbuild, List.map_cons]
          by_cases hnn : n = name
          · exact List.mem_cons.mpr (Or.inl (by rw [hnn]; rfl))
          · refine List.mem_cons_of_mem _ ?_
            refine ih (name :: seen) e hMem n hen hn0 ?_
            intro hmem
            rcases List.mem_cons.mp hmem with h | h
            · exact hnn h
            · exact hnseen h
        · have hbuild : buildModelInfos (entry :: rest) seen =
              buildModelInfos rest seen := by
            simp only [buildModelInfos, hname]
            rw [if_neg hkeep]
          rw [hbuild]
          exact ih seen e hMem n hen hn0 hnseen

/-- C8: the catalog's alias list is duplicate-free; every returned descriptor
is built from the FIRST configuration entry carrying its alias, and every
valid alias of the configuration is represented; an absent configuration or
one with zero entries yields the fixed non-empty fallback list. -/
theorem get_models_dedup_and_fallback (config : Option (List ConfigEntry)) :
    ((getModels config).map ModelInfo.name).Nodup ∧
    (∀ entries, config = some entries → buildModelInfos entries [] ≠ [] →
      getModels config = buildModelInfos entries [] ∧
      (∀ info ∈ getModels config,
        ∃ e, entries.find? (fun x => x.model_name == some info.name) = some e ∧
          info = entryToInfo info.name e) ∧
      (∀ e ∈ entries, ∀ n, e.model_name = some n → n ≠ "" →
        n ∈ (getModels config).map ModelInfo.name)) ∧
    ((config = none ∨ config = some []) → getModels config = fallbackModels) ∧
    fallbackModels ≠ [] := by
  have hsome : ∀ entries, buildModelInfos entries [] ≠ [] →
      getModels (some entries) = buildModelInfos entries [] := by
    intro entries hb
    show (if buildModelInfos entries [] = [] then fallbackModels
      else buildModelInfos entries []) = buildModelInfos entries []
    rw [if_neg hb]
  refine ⟨?_, ?_, ?_, by decide⟩
  · cases config with
    | none => decide
    | some entries =>
      by_cases hb : buildModelInfos entries [] = []
      · have : getModels (some entries) = fallbackModels := by
          show (if buildModelInfos entries [] = [] then fallbackModels
            else buildModelInfos entries []) = fallbackModels
          rw [if_pos hb]
        rw [this]
        decide
      · rw [hsome entries hb]
        exact (buildModelInfos_names entries []).2
  · rintro entries rfl hb
    rw [hsome entries hb]
    exact ⟨rfl, buildModelInfos_first_occurrence entries [],
      fun e he n hen hn0 =>
        buildModelInfos_complete entries [] e he n hen hn0 (List.not_mem_nil n)⟩
  · rintro (rfl | rfl)
    · rfl
    · rfl

/-- C8 witness: a configuration with a duplicated alias keeps only the first
`"smart"` entry (alias list duplicate-free, descriptor from the first match),
and an absent configuration yields the non-empty fallback list. -/
theorem get_models_dedup_and_fallback_witness :
    ((getModels (some dupAliasEntries)).map ModelInfo.name).Nodup ∧
    getModels none = fallbackModels ∧ fallbackModels ≠ [] :=
  ⟨(get_models_dedup_and_fallback (some dupAliasEntries)).1,
   (get_models_dedup_and_fallback none).2.2.1 (Or.inl rfl),
   (get_models_dedup_and_fallback none).2.2.2⟩

-- ------------------------------------------------------------------
-- C1, C2: the SSE stream state machine
-- ------------------------------------------------------------------

theorem sse_inj {a b : String} (h : sse a = sse b) : a = b := by
  have hd := congrArg String.data h
  simp only [sse, strDataAppend, List.append_assoc] at hd
  exact strExt (List.append_cancel_right (List.append_cancel_left hd))

theorem sse_ne_done_of_length {a : String} (h : a.data.length ≠ 6) :
    sse a ≠ sse "[DONE]" := by
  intro hEq
  apply h
  rw [sse_inj hEq]
  rfl

theorem sse_ne_done_of_ending {a : String} {e : Char} (he : e ∈ sentenceEndings)
    (h : a.data.getLast? = some e) : sse a ≠ sse "[DONE]" := by
  intro hEq
  rw [sse_inj hEq] at h
  have hdone : ("[DONE]" : String).data.getLast? = some ']' := by decide
  rw [hdone] at h
  injection h with h
  rw [← h] at he
  revert he
  decide

theorem processChunk_events (st : String × ℕ) (chunk : StreamChunk)
    (hst : st.2 = st.1.length) :
    (processChunk st chunk).1.2 = (processChunk st chunk).1.1.length ∧
    ∀ ev ∈ (processChunk st chunk).2, ev ≠ sse "[DONE]" := by
  simp only [processChunk]
  split
  · -- reasoning branch: one [THOUGHT] event, state untouched
    rename_i r heq
    refine ⟨hst, ?_⟩
    intro ev hev
    rw [List.mem_singleton.mp hev]
    apply sse_ne_done_of_length
    rw [strDataAppend, List.length_append]
    have h10 : ("[THOUGHT] ").data.length = 10 := rfl
    rw [h10]
    omega
  · -- content branch
    split
    · rename_i hcne
      split
      · -- flush
        rename_i hflush
        refine ⟨rfl, ?_⟩
        intro ev hev
        rw [List.mem_singleton.mp hev]
        rw [Bool.and_eq_true] at hflush
        obtain ⟨hflush1, hbne⟩ := hflush
        rw [Bool.or_eq_true] at hflush1
        rcases hflush1 with hsize | hend
        · apply sse_ne_done_of_length
          have hsize' := of_decide_eq_true hsize
          rw [← strLengthData, strLengthAppend, ← hst]
          simp only [maxBufferSize] at hsize'
          omega
        · obtain ⟨e, he, hlast⟩ := List.any_eq_true.mp hend
          apply sse_ne_done_of_ending he
          rw [strDataAppend]
          rw [List.getLast?_append_of_ne_nil _ (strDataNeNil hcne)]
          exact of_decide_eq_true hlast
      · -- accumulate
        refine ⟨?_, fun ev hev => absurd hev (List.not_mem_nil ev)⟩
        rw [strLengthAppend, hst]
    · exact ⟨hst, fun ev hev => absurd hev (List.not_mem_nil ev)⟩

theorem runChunks_events (chunks : List StreamChunk) (st : String × ℕ)
    (hst : st.2 = st.1.length) :
    (runChunks st chunks).1.2 = (runChunks st chunks).1.1.length ∧
    ∀ ev ∈ (runChunks st chunks).2, ev ≠ sse "[DONE]" := by
  induction chunks generalizing st with
  | nil => exact ⟨hst, fun ev hev => absurd hev (List.not_mem_nil ev)⟩
  | cons c rest ih =>
    obtain ⟨hstep, hstepEv⟩ := processChunk_events st c hst
    obtain ⟨htail, htailEv⟩ := ih (processChunk st c).1 hstep
    simp only [runChunks]
    refine ⟨htail, ?_⟩
    intro ev hev
    rcases List.mem_append.mp hev with hmem | hmem
    · exact hstepEv ev hmem
    · exact htailEv ev hmem

/-- C1 (counterexample): an `HTTPException` raised while consuming the
upstream sequence is re-raised by the `except HTTPException: raise` clause,
so the generator emits NO error-payload event and NO `[DONE]` sentinel —
the stream ends without a terminal marker. -/
theorem stream_http_exception_aborts :
    generateStream [] (some { message := "boom", isHTTPException := true }) = [] := rfl

/-- C1 (amended): for every chunk prefix and every NON-`HTTPException`
exception raised mid-stream, the generator emits exactly the events of the
consumed prefix — none of which is the `[DONE]` sentinel — followed by one
`Error: <message>` payload event and one final `[DONE]` sentinel, which occurs
exactly once; an `HTTPException` is instead re-raised, ending the stream with
no terminal marker. -/
theorem stream_error_single_terminal (chunks : List StreamChunk) (msg : String) :
    generateStream chunks (some { message := msg, isHTTPException := false }) =
      (runChunks ("", 0) chunks).2 ++ [sse ("Error: " ++ msg), sse "[DONE]"] ∧
    (∀ ev ∈ (runChunks ("", 0) chunks).2, ev ≠ sse "[DONE]") ∧
    (generateStream chunks (some { message := msg, isHTTPException := false })).count
        (sse "[DONE]") = 1 ∧
    (generateStream chunks (some { message := msg, isHTTPException := false })).getLast? =
      some (sse "[DONE]") := by
  have hgen : generateStream chunks (some { message := msg, isHTTPException := false }) =
      (runChunks ("", 0) chunks).2 ++ [sse ("Error: " ++ msg), sse "[DONE]"] := rfl
  have hnodone := (runChunks_events chunks ("", 0) rfl).2
  have herr : sse ("Error: " ++ msg) ≠ sse "[DONE]" := by
    apply sse_ne_done_of_length
    rw [strDataAppend, List.length_append]
    have h7 : ("Error: ").data.length = 7 := rfl
    rw [h7]
    omega
  refine ⟨hgen, hnodone, ?_, ?_⟩
  · rw [hgen, List.count_append]
    have h1 : (runChunks ("", 0) chunks).2.count (sse "[DONE]") = 0 :=
      List.count_eq_zero.mpr (fun hmem => hnodone _ hmem rfl)
    have h2 : [sse ("Error: " ++ msg), sse "[DONE]"].count (sse "[DONE]") = 1 := by
      have hne : (sse ("Error: " ++ msg) == sse "[DONE]") = false :=
        beq_eq_false_iff_ne.mpr herr
      simp [List.count_cons, hne]
    rw [h1, h2]
  · have hsplit : (runChunks ("", 0) chunks).2 ++ [sse ("Error: " ++ msg), sse "[DONE]"] =
        ((runChunks ("", 0) chunks).2 ++ [sse ("Error: " ++ msg)]) ++ [sse "[DONE]"] := by
      rw [List.append_assoc]
      rfl
    rw [hgen, hsplit, List.getLast?_concat]

theorem concatStrings_snoc (ps : List String) (b : String) :
    concatStrings (ps ++ [b]) = concatStrings ps ++ b := by
  induction ps with
  | nil =>
    show b ++ "" = "" ++ b
    rw [strAppendEmpty, strEmptyAppend]
  | cons a rest ih =>
    show a ++ concatStrings (rest ++ [b]) = (a ++ concatStrings rest) ++ b
    rw [ih, strAppendAssoc]

theorem processChunk_cases (st : String × ℕ) (c : StreamChunk)
    (hr : (extractContentFromChunk c).2 = none) :
    ((extractContentFromChunk c).1 = "" ∧ processChunk st c = (st, [])) ∨
    processChunk st c =
      (("", 0), [sse (st.1 ++ (extractContentFromChunk c).1)]) ∨
    processChunk st c =
      ((st.1 ++ (extractContentFromChunk c).1,
        st.2 + (extractContentFromChunk c).1.length), []) := by
  simp only [processChunk, hr]
  split
  · rename_i hcne
    split
    · exact Or.inr (Or.inl rfl)
    · exact Or.inr (Or.inr rfl)
  · rename_i hceq
    exact Or.inl ⟨not_not.mp hceq, rfl⟩

theorem runChunks_flush_concat (chunks : List StreamChunk) (st : String × ℕ)
    (h : ∀ c ∈ chunks, (extractContentFromChunk c).2 = none) :
    ∃ ps : List String, (runChunks st chunks).2 = ps.map sse ∧
      concatStrings ps ++ (runChunks st chunks).1.1 = st.1 ++ streamContents chunks := by
  induction chunks generalizing st with
  | nil =>
    refine ⟨[], rfl, ?_⟩
    show "" ++ st.1 = st.1 ++ ""
    rw [strAppendEmpty, strEmptyAppend]
  | cons c rest ih =>
    have hrest : ∀ x ∈ rest, (extractContentFromChunk x).2 = none :=
      fun x hx => h x (List.mem_cons_of_mem c hx)
    have hsc : streamContents (c :: rest) =
        (extractContentFromChunk c).1 ++ streamContents rest := rfl
    rcases processChunk_cases st c (h c (List.mem_cons_self c rest)) with
      ⟨hc0, hpc⟩ | hpc | hpc
    · obtain ⟨ps, hev, hcat⟩ := ih st hrest
      refine ⟨ps, ?_, ?_⟩
      · simp only [runChunks, hpc]
        simpa using hev
      · simp only [runChunks, hpc]
        rw [hsc, hc0, strEmptyAppend]
        exact hcat
    · obtain ⟨ps, hev, hcat⟩ := ih ("", 0) hrest
      rw [show (("", 0) : String × ℕ).1 = "" from rfl, strEmptyAppend] at hcat
      refine ⟨(st.1 ++ (extractContentFromChunk c).1) :: ps, ?_, ?_⟩
      · simp only [runChunks, hpc]
        rw [hev]
        rfl
      · simp only [runChunks, hpc]
        show (st.1 ++ (extractContentFromChunk c).1) ++ concatStrings ps ++
            (runChunks ("", 0) rest).1.1 = st.1 ++ streamContents (c :: rest)
        rw [strAppendAssoc (st.1 ++ (extractContentFromChunk c).1), hcat, hsc,
          strAppendAssoc]
    · obtain ⟨ps, hev, hcat⟩ := ih
        (st.1 ++ (extractContentFromChunk c).1,
          st.2 + (extractContentFromChunk c).1.length) hrest
      refine ⟨ps, ?_, ?_⟩
      · simp only [runChunks, hpc]
        simpa using hev
      · simp only [runChunks, hpc]
        rw [hcat]
        show (st.1 ++ (extractContentFromChunk c).1) ++ streamContents rest =
          st.1 ++ streamContents (c :: rest)
        rw [hsc, strAppendAssoc]

/-- C2: for the concrete chunk sequence `["Hi", " there.", " More"]` the
generator emits exactly the two content events `"Hi there."` (sentence-ending
flush) and `" More"` (end-of-stream flush) followed by exactly one `[DONE]`
sentinel; and for every chunk sequence without reasoning segments that ends
naturally, the emitted events are flushed content events followed by one
`[DONE]`, and the concatenation of the flushed fragments equals the
concatenation of all extracted chunk contents. -/
theorem stream_flush_concatenation (chunks : List StreamChunk)
    (h : ∀ c ∈ chunks, (extractContentFromChunk c).2 = none) :
    generateStream [StreamChunk.strChunk "Hi", StreamChunk.strChunk " there.",
        StreamChunk.strChunk " More"] none =
      [sse "Hi there.", sse " More", sse "[DONE]"] ∧
    ∃ ps : List String, generateStream chunks none = ps.map sse ++ [sse "[DONE]"] ∧
      concatStrings ps = streamContents chunks := by
  refine ⟨by decide, ?_⟩
  obtain ⟨ps, hev, hcat⟩ := runChunks_flush_concat chunks ("", 0) h
  rw [show (("", 0) : String × ℕ).1 = "" from rfl, strEmptyAppend] at hcat
  have hgen : generateStream chunks none =
      (runChunks ("", 0) chunks).2 ++
        (if (runChunks ("", 0) chunks).1.1 ≠ "" then
          [sse (runChunks ("", 0) chunks).1.1] else []) ++ [sse "[DONE]"] := rfl
  by_cases hbuf : (runChunks ("", 0) chunks).1.1 = ""
  · refine ⟨ps, ?_, ?_⟩
    · rw [hgen, if_neg (not_not_intro hbuf), hev, List.append_nil]
    · rw [hbuf, strAppendEmpty] at hcat
      exact hcat
  · refine ⟨ps ++ [(runChunks ("", 0) chunks).1.1], ?_, ?_⟩
    · rw [hgen, if_pos hbuf, hev, List.map_append, List.append_assoc,
        List.append_assoc]
      rfl
    · rw [concatStrings_snoc, hcat]

/-- C2 witness: the quantified part applied to the concrete three-chunk
stream of the claim. -/
theorem stream_flush_concatenation_witness :
    generateStream [StreamChunk.strChunk "Hi", StreamChunk.strChunk " there.",
        StreamChunk.strChunk " More"] none =
      [sse "Hi there.", sse " More", sse "[DONE]"] ∧
    ∃ ps : List String,
      generateStream [StreamChunk.strChunk "Hi", StreamChunk.strChunk " there.",
          StreamChunk.strChunk " More"] none = ps.map sse ++ [sse "[DONE]"] ∧
      concatStrings ps = streamContents [StreamChunk.strChunk "Hi",
        StreamChunk.strChunk " there.", StreamChunk.strChunk " More"] :=
  stream_flush_concatenation
    [StreamChunk.strChunk "Hi", StreamChunk.strChunk " there.",
      StreamChunk.strChunk " More"] (by decide)

end GoalKeeper
